import Mathlib

/-!
# Verification of the allocentric/egocentric pose notebook

A shallow embedding of the geometric computations in
`src/allocentric_vs_egocentric.ipynb`: the alignment rotation produced by
`scipy.spatial.transform.Rotation.align_vectors` on a single pair of vectors,
the composition `R_egocentric = R_pa_align * R_allocentric`, the affine
`compose` of `transforms3d`, the two scene generators, and the `visualize3d`
plotting glue.  Real-valued (floating point) quantities are modelled over `ℝ`.
-/

open Matrix

/-- 3-vectors, as functions `Fin 3 → ℝ` (a numpy array of shape `(3,)`). -/
abbrev Vec3 := Fin 3 → ℝ

/-- 3×3 real matrices (rotation matrices of the notebook). -/
abbrev Mat3 := Matrix (Fin 3) (Fin 3) ℝ

/-- 4×4 real matrices (the affine transforms built by `transforms3d.compose`). -/
abbrev Mat4 := Matrix (Fin 4) (Fin 4) ℝ

/-- Euclidean dot product of two 3-vectors (`np.dot`). -/
def dot3 (a b : Vec3) : ℝ := a 0 * b 0 + a 1 * b 1 + a 2 * b 2

/-- Squared Euclidean norm. -/
def norm2 (v : Vec3) : ℝ := dot3 v v

/-- Euclidean length (`np.linalg.norm`). -/
noncomputable def len (v : Vec3) : ℝ := Real.sqrt (norm2 v)

/-- Normalization of a vector to unit length, as `scipy`'s `align_vectors`
performs internally on each input vector. -/
noncomputable def unitize (v : Vec3) : Vec3 := (len v)⁻¹ • v

/-- Cross product of 3-vectors (`np.cross`). -/
def cross3 (a b : Vec3) : Vec3 :=
  ![a 1 * b 2 - a 2 * b 1, a 2 * b 0 - a 0 * b 2, a 0 * b 1 - a 1 * b 0]

/-- The skew-symmetric cross-product matrix `[v]ₓ`, with `[v]ₓ w = v × w`. -/
def skew (v : Vec3) : Mat3 :=
  ![![0, -v 2, v 1], ![v 2, 0, -v 0], ![-v 1, v 0, 0]]

/-- Rank-one matrix `u uᵀ`. -/
def outer (u : Vec3) : Mat3 := Matrix.vecMulVec u u

/-- The 180° rotation about the unit axis `u`: `2 u uᵀ − I`. -/
def flipAbout (u : Vec3) : Mat3 := (2 : ℝ) • outer u - 1

/-- A deterministic unit axis perpendicular to the unit vector `a`, used as the
tie-break when the two vectors to align are exactly anti-parallel (the spec
leaves the choice of flip axis to the implementation). -/
noncomputable def perpAxis (a : Vec3) : Vec3 :=
  if a 0 = 0 ∧ a 1 = 0 then ![1, 0, 0] else unitize ![-(a 1), a 0, 0]

/-- Minimal rotation taking the unit vector `b` onto the unit vector `a`
(Rodrigues' formula), with a 180° flip about a perpendicular axis when the
two are anti-parallel.  This is the single-pair behaviour of
`scipy.spatial.transform.Rotation.align_vectors(a, b)`. -/
noncomputable def alignUnit (a b : Vec3) : Mat3 :=
  if dot3 b a = -1 then flipAbout (perpAxis a)
  else 1 + skew (cross3 b a) +
    (1 + dot3 b a)⁻¹ • (skew (cross3 b a) * skew (cross3 b a))

/-- `R.align_vectors(a, b)` on a single pair of (not necessarily unit)
vectors: the rotation taking the direction of `b` onto the direction of `a`. -/
noncomputable def align_vectors (a b : Vec3) : Mat3 :=
  alignUnit (unitize a) (unitize b)

/-- The fixed principal axis of the notebook: `np.array([0, 0, 1])`. -/
def principal_axis : Vec3 := ![0, 0, 1]

/-- `R_pa_align`: alignment of the principal axis with the ray from the camera
center through the object center `look_at`
(`R.align_vectors(look_at, principal_axis)`). -/
noncomputable def R_pa_align (look_at : Vec3) : Mat3 :=
  align_vectors look_at principal_axis

/-- `R_egocentric = R_pa_align * R_allocentric`: scipy rotation composition,
which multiplies the corresponding matrices in the same order. -/
noncomputable def R_egocentric (look_at : Vec3) (R_allocentric : Mat3) : Mat3 :=
  R_pa_align look_at * R_allocentric

theorem dot3_comm (a b : Vec3) : dot3 a b = dot3 b a := by
  simp only [dot3]; ring

theorem norm2_nonneg (v : Vec3) : 0 ≤ norm2 v := by
  simp only [norm2, dot3]
  nlinarith [mul_self_nonneg (v 0), mul_self_nonneg (v 1), mul_self_nonneg (v 2)]

theorem norm2_eq_zero_iff {v : Vec3} (hz : norm2 v = 0) : v = 0 := by
  have h0 : v 0 * v 0 + v 1 * v 1 + v 2 * v 2 = 0 := by simpa [norm2, dot3] using hz
  have e0 : v 0 = 0 := mul_self_eq_zero.mp
    (by nlinarith [mul_self_nonneg (v 1), mul_self_nonneg (v 2)])
  have e1 : v 1 = 0 := mul_self_eq_zero.mp
    (by nlinarith [mul_self_nonneg (v 0), mul_self_nonneg (v 2)])
  have e2 : v 2 = 0 := mul_self_eq_zero.mp
    (by nlinarith [mul_self_nonneg (v 0), mul_self_nonneg (v 1)])
  funext i
  fin_cases i
  · exact e0
  · exact e1
  · exact e2

theorem norm2_pos_of_ne_zero {v : Vec3} (h : v ≠ 0) : 0 < norm2 v := by
  rcases (norm2_nonneg v).lt_or_eq with hp | hz
  · exact hp
  · exact absurd (norm2_eq_zero_iff hz.symm) h

theorem len_pos_of_ne_zero {v : Vec3} (h : v ≠ 0) : 0 < len v :=
  Real.sqrt_pos.mpr (norm2_pos_of_ne_zero h)

theorem norm2_smul (c : ℝ) (v : Vec3) : norm2 (c • v) = c ^ 2 * norm2 v := by
  simp only [norm2, dot3, Pi.smul_apply, smul_eq_mul]; ring

theorem norm2_unitize {v : Vec3} (h : v ≠ 0) : norm2 (unitize v) = 1 := by
  have hp := norm2_pos_of_ne_zero h
  have hs : len v ^ 2 = norm2 v := Real.sq_sqrt hp.le
  have hl := len_pos_of_ne_zero h
  rw [unitize, norm2_smul, inv_pow, hs, inv_mul_cancel₀ hp.ne']

theorem skew_mulVec (v w : Vec3) : (skew v).mulVec w = cross3 v w := by
  funext i
  fin_cases i <;>
    simp [skew, cross3, Matrix.mulVec, Matrix.dotProduct, Fin.sum_univ_three] <;> ring

theorem cross3_self_left (b a : Vec3) :
    cross3 (cross3 b a) b = norm2 b • a - dot3 b a • b := by
  funext i
  fin_cases i <;> simp [cross3, norm2, dot3] <;> ring

theorem cross3_self_right (b a : Vec3) :
    cross3 (cross3 b a) a = dot3 a b • a - norm2 a • b := by
  funext i
  fin_cases i <;> simp [cross3, norm2, dot3] <;> ring

theorem cross3_sub_right (u v w : Vec3) :
    cross3 u (v - w) = cross3 u v - cross3 u w := by
  funext i
  fin_cases i <;> simp [cross3] <;> ring

theorem cross3_smul_right (c : ℝ) (u w : Vec3) :
    cross3 u (c • w) = c • cross3 u w := by
  funext i
  fin_cases i <;> simp [cross3] <;> ring

theorem norm2_cross3 (b a : Vec3) :
    norm2 (cross3 b a) = norm2 b * norm2 a - dot3 b a ^ 2 := by
  simp [norm2, dot3, cross3]
  ring

theorem rodrigues_mulVec {a b : Vec3} (ha : norm2 a = 1) (hb : norm2 b = 1)
    (hc : 1 + dot3 b a ≠ 0) :
    (1 + skew (cross3 b a) + (1 + dot3 b a)⁻¹ •
      (skew (cross3 b a) * skew (cross3 b a))).mulVec b = a := by
  have hvb : cross3 (cross3 b a) b = a - dot3 b a • b := by
    rw [cross3_self_left, hb, one_smul]
  have hvvb : cross3 (cross3 b a) (cross3 (cross3 b a) b)
      = (dot3 b a ^ 2 - 1) • b := by
    rw [hvb, cross3_sub_right, cross3_smul_right, cross3_self_right, dot3_comm a b,
      ha, one_smul, hvb]
    funext i
    simp only [Pi.sub_apply, Pi.smul_apply, smul_eq_mul]
    ring
  have hK2 : (skew (cross3 b a) * skew (cross3 b a)).mulVec b
      = (dot3 b a ^ 2 - 1) • b := by
    rw [← Matrix.mulVec_mulVec, skew_mulVec, skew_mulVec, hvvb]
  rw [Matrix.add_mulVec, Matrix.add_mulVec, Matrix.one_mulVec,
    Matrix.smul_mulVec_assoc, skew_mulVec, hvb, hK2]
  funext i
  simp only [Pi.add_apply, Pi.sub_apply, Pi.smul_apply, smul_eq_mul]
  field_simp
  ring

theorem eq_neg_of_antiparallel {a b : Vec3} (ha : norm2 a = 1) (hb : norm2 b = 1)
    (hc : dot3 b a = -1) : b = -a := by
  have hk : norm2 (b + a) = 0 := by
    simp only [norm2, dot3, Pi.add_apply] at *
    nlinarith [hc, ha, hb]
  have := norm2_eq_zero_iff hk
  funext i
  have hi := congrFun this i
  simp only [Pi.add_apply, Pi.zero_apply] at hi
  simp only [Pi.neg_apply]
  linarith

theorem dot3_perpAxis {a : Vec3} : dot3 (perpAxis a) a = 0 := by
  rw [perpAxis]
  by_cases h : a 0 = 0 ∧ a 1 = 0
  · rw [if_pos h]
    simp [dot3, h.1]
  · rw [if_neg h]
    simp only [unitize, dot3, Pi.smul_apply, smul_eq_mul]
    have : (-(a 1)) * a 0 + a 0 * a 1 = 0 := by ring
    simp [Matrix.cons_val_zero, Matrix.cons_val_one]
    ring

theorem flipAbout_mulVec_neg {a u : Vec3} (hu : dot3 u a = 0) :
    (flipAbout u).mulVec (-a) = a := by
  funext i
  have h0 : u 0 * a 0 + u 1 * a 1 + u 2 * a 2 = 0 := by
    simpa [dot3] using hu
  fin_cases i
  · simp [flipAbout, outer, Matrix.vecMulVec, Matrix.mulVec, Matrix.dotProduct,
      Fin.sum_univ_three, Matrix.sub_apply, Matrix.smul_apply, Matrix.one_apply]
    linear_combination (-2 * u 0) * h0
  · simp [flipAbout, outer, Matrix.vecMulVec, Matrix.mulVec, Matrix.dotProduct,
      Fin.sum_univ_three, Matrix.sub_apply, Matrix.smul_apply, Matrix.one_apply]
    linear_combination (-2 * u 1) * h0
  · simp [flipAbout, outer, Matrix.vecMulVec, Matrix.mulVec, Matrix.dotProduct,
      Fin.sum_univ_three, Matrix.sub_apply, Matrix.smul_apply, Matrix.one_apply]
    linear_combination (-2 * u 2) * h0

theorem alignUnit_mulVec {a b : Vec3} (ha : norm2 a = 1) (hb : norm2 b = 1) :
    (alignUnit a b).mulVec b = a := by
  rw [alignUnit]
  by_cases hc : dot3 b a = -1
  · rw [if_pos hc]
    have hba : b = -a := eq_neg_of_antiparallel ha hb hc
    rw [hba]
    exact flipAbout_mulVec_neg dot3_perpAxis
  · rw [if_neg hc]
    exact rodrigues_mulVec ha hb (fun h => hc (by linarith))

theorem skew_transpose (v : Vec3) : (skew v)ᵀ = -skew v := by
  funext i j
  fin_cases i <;> fin_cases j <;> simp [skew, Matrix.transpose_apply]

theorem skew_cube (v : Vec3) : skew v * skew v * skew v = -(norm2 v • skew v) := by
  funext i j
  fin_cases i <;> fin_cases j <;>
    · simp [skew, norm2, dot3, Matrix.mul_apply, Fin.sum_univ_three]
      ring

theorem rodrigues_orthogonal_aux (K : Mat3) (s n : ℝ) (hKt : Kᵀ = -K)
    (hK3 : K * K * K = -(n • K)) (hs : 2 * s - 1 - s ^ 2 * n = 0) :
    (1 + K + s • (K * K))ᵀ * (1 + K + s • (K * K)) = 1 := by
  have hK4 : K * K * (K * K) = -(n • (K * K)) := by
    calc K * K * (K * K) = K * K * K * K := (mul_assoc (K * K) K K).symm
    _ = -(n • K) * K := by rw [hK3]
    _ = -(n • (K * K)) := by rw [neg_mul, Matrix.smul_mul]
  have hKKK : K * (K * K) = -(n • K) := by rw [← mul_assoc, hK3]
  have ht : (1 + K + s • (K * K))ᵀ = 1 - K + s • (K * K) := by
    rw [Matrix.transpose_add, Matrix.transpose_add, Matrix.transpose_one,
      Matrix.transpose_smul, Matrix.transpose_mul, hKt, neg_mul_neg, sub_eq_add_neg]
  rw [ht]
  simp only [mul_add, add_mul, sub_mul, mul_sub, one_mul, mul_one,
    Matrix.smul_mul, Matrix.mul_smul, smul_smul, ← mul_assoc]
  simp only [hK3, Matrix.smul_mul, Matrix.mul_smul, neg_mul, mul_neg,
    smul_neg, smul_smul]
  match_scalars
  · ring
  · ring
  · linear_combination hs

theorem outer_transpose (u : Vec3) : (outer u)ᵀ = outer u := by
  funext i j
  simp only [outer, Matrix.transpose_apply, Matrix.vecMulVec_apply]
  ring

theorem outer_mul_outer (u : Vec3) : outer u * outer u = norm2 u • outer u := by
  funext i j
  simp only [outer, Matrix.mul_apply, Matrix.vecMulVec_apply, Fin.sum_univ_three,
    norm2, dot3, Matrix.smul_apply, smul_eq_mul]
  ring

theorem flipAbout_orthogonal {u : Vec3} (hu : norm2 u = 1) :
    (flipAbout u)ᵀ * flipAbout u = 1 := by
  have ht : (flipAbout u)ᵀ = flipAbout u := by
    rw [flipAbout, Matrix.transpose_sub, Matrix.transpose_smul, Matrix.transpose_one,
      outer_transpose]
  rw [ht, flipAbout]
  simp only [sub_mul, mul_sub, one_mul, mul_one, Matrix.smul_mul, Matrix.mul_smul,
    smul_smul, outer_mul_outer, hu, one_smul]
  module

theorem norm2_perpAxis (a : Vec3) : norm2 (perpAxis a) = 1 := by
  rw [perpAxis]
  by_cases h : a 0 = 0 ∧ a 1 = 0
  · rw [if_pos h]
    simp [norm2, dot3]
  · rw [if_neg h]
    apply norm2_unitize
    intro hw
    apply h
    have h0 := congrFun hw 0
    have h1 := congrFun hw 1
    simp only [Matrix.cons_val_zero, Matrix.cons_val_one, Matrix.head_cons,
      Pi.zero_apply, neg_eq_zero] at h0 h1
    exact ⟨h1, h0⟩

theorem alignUnit_orthogonal {a b : Vec3} (ha : norm2 a = 1) (hb : norm2 b = 1) :
    (alignUnit a b)ᵀ * alignUnit a b = 1 := by
  rw [alignUnit]
  by_cases hc : dot3 b a = -1
  · rw [if_pos hc]
    exact flipAbout_orthogonal (norm2_perpAxis a)
  · rw [if_neg hc]
    have h1c : 1 + dot3 b a ≠ 0 := fun h => hc (by linarith)
    apply rodrigues_orthogonal_aux _ _ (norm2 (cross3 b a)) (skew_transpose _)
      (skew_cube _)
    rw [norm2_cross3, ha, hb]
    field_simp
    ring

theorem align_vectors_orthogonal {t p : Vec3} (ht : t ≠ 0) (hp : p ≠ 0) :
    (align_vectors t p)ᵀ * align_vectors t p = 1 :=
  alignUnit_orthogonal (norm2_unitize ht) (norm2_unitize hp)

theorem align_vectors_inv {t p : Vec3} (ht : t ≠ 0) (hp : p ≠ 0) :
    (align_vectors t p)⁻¹ = (align_vectors t p)ᵀ :=
  Matrix.inv_eq_left_inv (align_vectors_orthogonal ht hp)

/-- `transforms3d.affines.compose(T, R, Z)` (no shears): the 4×4 affine
transform whose upper-left 3×3 block is `R @ diag(Z)`, whose last column is
the translation `T`, with homogeneous bottom row `[0, 0, 0, 1]`. -/
def compose (T : Vec3) (Rm : Mat3) (Z : Vec3) : Mat4 :=
  Matrix.of fun i j =>
    if hi : (i : ℕ) < 3 then
      if hj : (j : ℕ) < 3 then (Rm * Matrix.diagonal Z) ⟨i, hi⟩ ⟨j, hj⟩
      else T ⟨i, hi⟩
    else if (j : ℕ) < 3 then 0 else 1

/-- The rotation block `A[:3, :3]` of a 4×4 affine transform. -/
def rotPart (A : Mat4) : Mat3 :=
  Matrix.of fun i j => A i.castSucc j.castSucc

/-- The translation column `A[:3, 3]` of a 4×4 affine transform. -/
def transPart (A : Mat4) : Vec3 := fun i => A i.castSucc 3

theorem rotPart_compose (T : Vec3) (Rm : Mat3) (Z : Vec3) :
    rotPart (compose T Rm Z) = Rm * Matrix.diagonal Z := by
  funext i j
  simp only [rotPart, compose, Matrix.of_apply, Fin.coe_castSucc]
  rw [dif_pos i.isLt, dif_pos j.isLt]

theorem transPart_compose (T : Vec3) (Rm : Mat3) (Z : Vec3) :
    transPart (compose T Rm Z) = T := by
  funext i
  simp only [transPart, compose, Matrix.of_apply, Fin.coe_castSucc]
  rw [dif_pos i.isLt]
  rfl

theorem diagonal_ones : Matrix.diagonal (![1, 1, 1] : Vec3) = (1 : Mat3) := by
  funext i j
  fin_cases i <;> fin_cases j <;> simp [Matrix.diagonal, Matrix.one_apply]

/-- The notebook's rotation choice (both scene cells): `R.random()` — the
injected `sample` — when `use_random_rotation` is set, else `np.eye(3)`. -/
def scene_rotation (use_random_rotation : Bool) (sample : Mat3) : Mat3 :=
  if use_random_rotation then sample else 1

/-- The egocentric scene generator (the notebook's first scene loop,
parametrized over its inputs as in spec §4.1): one box transform
`compose(translation, rotation, np.ones(3))` per position, all sharing
`rotation`. -/
def egocentric_boxes (rotation : Mat3) (positions : List Vec3) : List Mat4 :=
  positions.map fun translation => compose translation rotation ![1, 1, 1]

/-- The translations of the egocentric scene: `[i, 0, -1]` for
`i in [-2, -1, 0, 1, 2]`. -/
def egocentric_positions : List Vec3 :=
  ([-2, -1, 0, 1, 2] : List ℝ).map fun i => ![i, 0, -1]

/-- The full egocentric scene of the notebook, as a function of the flag and
of the (injected) random rotation sample. -/
def egocentric_scene (use_random_rotation : Bool) (sample : Mat3) : List Mat4 :=
  egocentric_boxes (scene_rotation use_random_rotation sample) egocentric_positions

/-- `np.linspace(a, b, n)` (endpoint included): `a + (b - a) * k / (n - 1)`. -/
noncomputable def linspace (a b : ℝ) (n : ℕ) (k : Fin n) : ℝ :=
  a + (b - a) * k / ((n : ℝ) - 1)

/-- `angle = np.pi * np.linspace(-1 + eps, 0 - eps, 5)` with `eps = 0.1`. -/
noncomputable def angle (k : Fin 5) : ℝ :=
  Real.pi * linspace (-1 + 0.1) (0 - 0.1) 5 k

/-- `object_centers`: rows of `np.stack((x, y, z)).T` with
`x = cos(angle) * length`, `y = 0`, `z = sin(angle) * length`, `length = 2`. -/
noncomputable def object_centers (k : Fin 5) : Vec3 :=
  ![Real.cos (angle k) * 2, 0, Real.sin (angle k) * 2]

/-- The full allocentric scene of the notebook: for each of the 5 object
centers, the transform `compose(look_at, R_egocentric.as_matrix(), np.ones(3))`
with `R_egocentric = R_pa_align * R_allocentric`. -/
noncomputable def allocentric_scene (use_random_rotation : Bool) (sample : Mat3) :
    List Mat4 :=
  (List.finRange 5).map fun k =>
    compose (object_centers k)
      (R_egocentric (object_centers k) (scene_rotation use_random_rotation sample))
      ![1, 1, 1]

/-- A plot configuration dictionary handed to `visualize3d`, tagged by which
of the three loops consumes it; the payload itself is opaque to the control
flow being verified. -/
inductive PlotItem where
  | point (cfg : ℕ) : PlotItem
  | mesh (cfg : ℕ) : PlotItem
  | line (cfg : ℕ) : PlotItem
deriving DecidableEq

/-- One loop of `visualize3d`: each item either creates the plot handle
(`ploot = mp.plot(**x)` when `ploot is None`) or is added to the existing
handle (`ploot.add_*(**x)`).  The handle is modelled as the list of items
attached so far. -/
def addItems (ploot : Option (List PlotItem)) (items : List PlotItem) :
    Option (List PlotItem) :=
  items.foldl
    (fun pl x =>
      match pl with
      | none => some [x]
      | some p => some (p ++ [x]))
    ploot

/-- `visualize3d(points, meshes, lines)`: `None` arguments are replaced by
`[]`, the three loops run in order starting from `ploot = None`, and the final
`ploot.to_html(...)` raises (`none`) when the handle was never created,
otherwise returns the rendered document (`some` of the handle's contents). -/
def visualize3d (points meshes lines : Option (List ℕ)) : Option (List PlotItem) :=
  addItems
    (addItems
      (addItems none ((points.getD []).map PlotItem.point))
      ((meshes.getD []).map PlotItem.mesh))
    ((lines.getD []).map PlotItem.line)

theorem addItems_from_some (p : List PlotItem) (xs : List PlotItem) :
    ∃ q : List PlotItem, addItems (some p) xs = some q := by
  induction xs generalizing p with
  | nil => exact ⟨p, rfl⟩
  | cons x xs ih => exact ih (p ++ [x])

theorem addItems_isSome (pl : Option (List PlotItem)) (xs : List PlotItem) :
    (addItems pl xs).isSome = true ↔ pl.isSome = true ∨ xs ≠ [] := by
  cases pl with
  | some p =>
    obtain ⟨q, hq⟩ := addItems_from_some p xs
    simp [hq]
  | none =>
    cases xs with
    | nil => simp [addItems]
    | cons x xs =>
      have hstep : addItems none (x :: xs) = addItems (some [x]) xs := rfl
      obtain ⟨q, hq⟩ := addItems_from_some [x] xs
      rw [hstep, hq]
      simp

/-- The error raised by the alignment step on degenerate input. -/
inductive AlignError where
  | invalidInput : AlignError
deriving DecidableEq

/-- Modelled from the spec: the invalid-input check of the alignment step.
The check itself is performed inside the external `scipy` routine invoked at
`R.align_vectors(look_at.reshape(-1, 3), principal_axis)` — code that is not
part of this repository — and the spec (§4.2, §7) requires a zero
`target_direction` or zero `principal_axis` to fail with an invalid-input
error rather than return a matrix. -/
noncomputable def align_vectors_checked (a b : Vec3) :
    Except AlignError Mat3 :=
  if a = 0 ∨ b = 0 then Except.error AlignError.invalidInput
  else Except.ok (align_vectors a b)

theorem e2_ne_zero : (![0, 0, 1] : Vec3) ≠ 0 := by
  intro h
  have h2 := congrFun h 2
  simp at h2

theorem e0_ne_zero : (![1, 0, 0] : Vec3) ≠ 0 := by
  intro h
  have h0 := congrFun h 0
  simp at h0

theorem principal_axis_ne_zero : principal_axis ≠ 0 := e2_ne_zero

/-- C3: for every non-zero `target_direction` and non-zero `principal_axis`,
the alignment rotation of step 1 maps the normalized principal axis exactly
onto the normalized target direction (the floating-point tolerance of the
spec becomes exact equality in the real-number model). -/
theorem spec_c3_alignment_maps_axis_onto_target (t p : Vec3)
    (ht : t ≠ 0) (hp : p ≠ 0) :
    (align_vectors t p).mulVec (unitize p) = unitize t :=
  alignUnit_mulVec (norm2_unitize ht) (norm2_unitize hp)

/-- Witness for C3 at the notebook's own input `target = (0,0,2)`-direction
ray with `principal_axis = (0,0,1)`. -/
theorem spec_c3_witness :
    (![1, 0, 0] : Vec3) ≠ 0 ∧ principal_axis ≠ 0 ∧
      (align_vectors ![1, 0, 0] principal_axis).mulVec (unitize principal_axis)
        = unitize ![1, 0, 0] :=
  ⟨e0_ne_zero, principal_axis_ne_zero,
    spec_c3_alignment_maps_axis_onto_target ![1, 0, 0] principal_axis
      e0_ne_zero principal_axis_ne_zero⟩

/-- C2: the conversion composes in exactly the order
`R_egocentric = R_pa_align * R_allocentric`: as a map on vectors, the
allocentric rotation is applied first and the alignment rotation second. -/
theorem spec_c2_composition_order (t : Vec3) (ht : t ≠ 0) (A : Mat3) :
    R_egocentric t A = R_pa_align t * A ∧
      ∀ v : Vec3, (R_egocentric t A).mulVec v
        = (R_pa_align t).mulVec (A.mulVec v) := by
  refine ⟨rfl, fun v => ?_⟩
  rw [R_egocentric, ← Matrix.mulVec_mulVec]

/-- Witness for C2 at `target = (1,0,0)`, `allocentric = I`. -/
theorem spec_c2_witness :
    (![1, 0, 0] : Vec3) ≠ 0 ∧
      (R_egocentric ![1, 0, 0] 1 = R_pa_align ![1, 0, 0] * 1 ∧
        ∀ v : Vec3, (R_egocentric ![1, 0, 0] 1).mulVec v
          = (R_pa_align ![1, 0, 0]).mulVec ((1 : Mat3).mulVec v)) :=
  ⟨e0_ne_zero, spec_c2_composition_order ![1, 0, 0] e0_ne_zero 1⟩

/-- C6: with the identity allocentric rotation, the egocentric rotation equals
the alignment rotation exactly. -/
theorem spec_c6_identity_boundary (t : Vec3) (ht : t ≠ 0) :
    R_egocentric t 1 = R_pa_align t := by
  rw [R_egocentric, mul_one]

/-- Witness for C6 at `target = (1,0,0)`. -/
theorem spec_c6_witness :
    (![1, 0, 0] : Vec3) ≠ 0 ∧ R_egocentric ![1, 0, 0] 1 = R_pa_align ![1, 0, 0] :=
  ⟨e0_ne_zero, spec_c6_identity_boundary ![1, 0, 0] e0_ne_zero⟩

/-- C4: when `target_direction` or `principal_axis` is the zero vector, the
alignment step fails with the invalid-input error and never returns a
rotation matrix. -/
theorem spec_c4_zero_vector_error (a b : Vec3) (h : a = 0 ∨ b = 0) :
    align_vectors_checked a b = Except.error AlignError.invalidInput ∧
      ∀ M : Mat3, align_vectors_checked a b ≠ Except.ok M := by
  rw [align_vectors_checked, if_pos h]
  exact ⟨rfl, fun M hM => by cases hM⟩

/-- Witness for C4 at `target_direction = 0`. -/
theorem spec_c4_witness :
    ((0 : Vec3) = 0 ∨ principal_axis = 0) ∧
      (align_vectors_checked 0 principal_axis
          = Except.error AlignError.invalidInput ∧
        ∀ M : Mat3, align_vectors_checked 0 principal_axis ≠ Except.ok M) :=
  ⟨Or.inl rfl, spec_c4_zero_vector_error 0 principal_axis (Or.inl rfl)⟩

/-- C1: round-trip recovery: for any fixed allocentric rotation and any family
of distinct non-zero target directions, composing each box's egocentric
rotation with the inverse of its alignment rotation recovers the same shared
allocentric rotation for every box. -/
theorem spec_c1_allocentric_roundtrip (A : Mat3) (n : ℕ) (targets : Fin n → Vec3)
    (hne : ∀ i, targets i ≠ 0) (hdist : Function.Injective targets) :
    ∀ i : Fin n, (R_pa_align (targets i))⁻¹ * R_egocentric (targets i) A = A := by
  intro i
  have h1 : (align_vectors (targets i) principal_axis)⁻¹
      = (align_vectors (targets i) principal_axis)ᵀ :=
    align_vectors_inv (hne i) principal_axis_ne_zero
  simp only [R_egocentric, R_pa_align]
  rw [h1, ← mul_assoc, align_vectors_orthogonal (hne i) principal_axis_ne_zero,
    one_mul]

/-- Two distinct non-zero target directions, for the C1 witness. -/
def targetsPair : Fin 2 → Vec3 := ![![0, 0, 1], ![1, 0, 0]]

theorem targetsPair_ne_zero : ∀ i, targetsPair i ≠ 0 := by
  intro i
  fin_cases i
  · exact e2_ne_zero
  · exact e0_ne_zero

theorem targetsPair_inj : Function.Injective targetsPair := by
  intro i j hij
  fin_cases i <;> fin_cases j
  · rfl
  · exfalso
    have h2 := congrFun hij 2
    simp [targetsPair] at h2
  · exfalso
    have h2 := congrFun hij 2
    simp [targetsPair] at h2
  · rfl

/-- Witness for C1: two distinct non-zero targets, identity allocentric
rotation. -/
theorem spec_c1_witness :
    (∀ i, targetsPair i ≠ 0) ∧ Function.Injective targetsPair ∧
      ∀ i : Fin 2,
        (R_pa_align (targetsPair i))⁻¹ * R_egocentric (targetsPair i) 1 = 1 :=
  ⟨targetsPair_ne_zero, targetsPair_inj,
    spec_c1_allocentric_roundtrip 1 2 targetsPair targetsPair_ne_zero
      targetsPair_inj⟩

theorem unitize_e2 : unitize (![0, 0, 1] : Vec3) = ![0, 0, 1] := by
  have hn : norm2 (![0, 0, 1] : Vec3) = 1 := by simp [norm2, dot3]
  rw [unitize, len, hn, Real.sqrt_one, inv_one, one_smul]

/-- C7: the concrete aligned scenario: `target_direction = (0,0,1)`,
`principal_axis = (0,0,1)`, identity allocentric rotation — the alignment
rotation is the identity and so is the combined egocentric rotation. -/
theorem spec_c7_concrete_aligned :
    R_pa_align ![0, 0, 1] = 1 ∧ R_egocentric ![0, 0, 1] 1 = 1 := by
  have hpa : R_pa_align ![0, 0, 1] = 1 := by
    simp only [R_pa_align, align_vectors, principal_axis, unitize_e2, alignUnit]
    have hd : dot3 (![0, 0, 1] : Vec3) ![0, 0, 1] = 1 := by simp [dot3]
    rw [if_neg (by rw [hd]; norm_num)]
    have hsk : skew (cross3 (![0, 0, 1] : Vec3) ![0, 0, 1]) = 0 := by
      funext i j
      fin_cases i <;> fin_cases j <;>
        simp [skew, cross3, Matrix.vecHead, Matrix.vecTail]
    rw [hsk]
    simp
  exact ⟨hpa, by rw [R_egocentric, hpa, one_mul]⟩

theorem egocentric_boxes_length (rotation : Mat3) (positions : List Vec3) :
    (egocentric_boxes rotation positions).length = positions.length := by
  simp [egocentric_boxes]

/-- C5: the egocentric scene generator returns one box per input position;
every box carries exactly the shared rotation matrix, and the `i`-th box's
translation equals the `i`-th input position exactly. -/
theorem spec_c5_egocentric_generator (rotation : Mat3) (positions : List Vec3)
    (i : ℕ) (hi : i < positions.length) :
    (egocentric_boxes rotation positions).length = positions.length ∧
      ((egocentric_boxes rotation positions)[i]?).map rotPart = some rotation ∧
      ((egocentric_boxes rotation positions)[i]?).map transPart = positions[i]? := by
  refine ⟨egocentric_boxes_length rotation positions, ?_, ?_⟩
  · rw [egocentric_boxes, List.getElem?_map, List.getElem?_eq_getElem hi]
    simp [rotPart_compose, diagonal_ones]
  · rw [egocentric_boxes, List.getElem?_map, List.getElem?_eq_getElem hi]
    simp [transPart_compose]

/-- Witness for C5: one position, identity rotation, index 0. -/
theorem spec_c5_witness :
    0 < ([![(1 : ℝ), 2, 3]] : List Vec3).length ∧
      ((egocentric_boxes 1 [![(1 : ℝ), 2, 3]]).length
          = ([![(1 : ℝ), 2, 3]] : List Vec3).length ∧
        ((egocentric_boxes 1 [![(1 : ℝ), 2, 3]])[0]?).map rotPart = some 1 ∧
        ((egocentric_boxes 1 [![(1 : ℝ), 2, 3]])[0]?).map transPart
          = ([![(1 : ℝ), 2, 3]] : List Vec3)[0]?) :=
  ⟨Nat.one_pos, spec_c5_egocentric_generator 1 [![(1 : ℝ), 2, 3]] 0 Nat.one_pos⟩

/-- C8: with `use_random_rotation = False`, both scenes are independent of the
random sample — two runs produce identical box geometry — and use the identity
rotation; the sample is consulted exactly when the flag is set. -/
theorem spec_c8_determinism (s1 s2 : Mat3) :
    egocentric_scene false s1 = egocentric_scene false s2 ∧
      allocentric_scene false s1 = allocentric_scene false s2 ∧
      scene_rotation false s1 = 1 ∧ ∀ s : Mat3, scene_rotation true s = s :=
  ⟨rfl, rfl, rfl, fun _ => rfl⟩

/-- C9: `visualize3d` returns a rendered document exactly when at least one of
its three arguments is a non-empty list; when all three are `None` or empty,
the plot handle is never created and the final `to_html` call fails. -/
theorem spec_c9_visualize3d_needs_an_item (points meshes lines : Option (List ℕ)) :
    (visualize3d points meshes lines).isSome = true ↔
      points.getD [] ≠ [] ∨ meshes.getD [] ≠ [] ∨ lines.getD [] ≠ [] := by
  simp only [visualize3d, addItems_isSome, Option.isSome_none,
    Bool.false_eq_true, false_or, ne_eq, List.map_eq_nil_iff]
  tauto

theorem linspace_bounds (k : Fin 5) :
    -1 < linspace (-1 + 0.1) (0 - 0.1) 5 k ∧ linspace (-1 + 0.1) (0 - 0.1) 5 k < 0 := by
  fin_cases k <;> constructor <;> norm_num [linspace]

theorem sin_angle_neg (k : Fin 5) : Real.sin (angle k) < 0 := by
  have hπ := Real.pi_pos
  obtain ⟨h1, h2⟩ := linspace_bounds k
  have ha1 : angle k < 0 := by
    rw [angle]
    exact mul_neg_of_pos_of_neg hπ h2
  have ha2 : -Real.pi < angle k := by
    rw [angle]
    nlinarith [mul_pos hπ (show (0 : ℝ) < linspace (-1 + 0.1) (0 - 0.1) 5 k + 1 by
      linarith)]
  have hp : 0 < Real.sin (-angle k) :=
    Real.sin_pos_of_pos_of_lt_pi (by linarith) (by linarith)
  rw [Real.sin_neg] at hp
  linarith

/-- C10: every one of the 5 allocentric object centers lies at distance
exactly `length = 2` from the camera origin, has y-coordinate exactly 0, and
has strictly negative z-coordinate: all boxes sit in front of the camera on a
common half-circle. -/
theorem spec_c10_layout_invariant (k : Fin 5) :
    len (object_centers k) = 2 ∧ object_centers k 1 = 0 ∧
      object_centers k 2 < 0 := by
  refine ⟨?_, by simp [object_centers], ?_⟩
  · have hn : norm2 (object_centers k) = 4 := by
      simp only [norm2, dot3, object_centers, Matrix.cons_val_zero,
        Matrix.cons_val_one, Matrix.head_cons, Matrix.cons_val_two,
        Matrix.tail_cons]
      linear_combination 4 * Real.sin_sq_add_cos_sq (angle k)
    rw [len, hn, show (4 : ℝ) = 2 ^ 2 by norm_num,
      Real.sqrt_sq (by norm_num : (0 : ℝ) ≤ 2)]
  · have hs := sin_angle_neg k
    have h2 : object_centers k 2 = Real.sin (angle k) * 2 := by
      simp [object_centers]
    rw [h2]
    nlinarith
